import Mathlib

/-!
Shallow embedding of `src/terminal_paint.c` (terminal-paint repository).

The canvas is a flat row-major list of cells, exactly as the C program's
`Cell *canvas` buffer; coordinates are `Int` (C `int`), widths/heights are
`Nat` (the program never stores negative dimensions).  File contents are
`List Char`; the `fscanf`-style scanners below mirror the C standard
library's `%d` conversions (skip whitespace, optional sign, at least one
digit) and the literal `,` match of `"%d,%d"`.
-/

/-- One canvas cell: `unsigned char ch` and `short color` of the C `Cell`
struct.  Reachable program states only ever store `ch ≤ 255` and
`color ≤ 7`, so both fields are `Nat`. -/
structure Cell where
  ch : Nat
  color : Nat
deriving DecidableEq

/-- Default cell used for out-of-range `getD` reads (never reached when the
`cells.length = width * height` invariant holds). -/
def defaultCell : Cell := ⟨32, 7⟩

/-- The canvas: dimensions plus the flat row-major cell buffer
(`g_app.canvas`, `g_app.canvas_width`, `g_app.canvas_height`). -/
structure Canvas where
  width : Nat
  height : Nat
  cells : List Cell
deriving DecidableEq

/-- Read the cell at `(x, y)` (row-major index `y * width + x`, as in the C
pointer arithmetic). -/
def getCell (cv : Canvas) (x y : Nat) : Cell :=
  cv.cells.getD (y * cv.width + x) defaultCell

/-- Mutable application state of the C program (`AppState g_app`), together
with the mutable `brush_chars` table (a file-scope global in C). -/
structure AppState where
  canvas : Canvas
  cursor_x : Int
  cursor_y : Int
  pen_down : Bool
  brush_index : Nat
  current_color : Nat
  brush_chars : List Nat
deriving DecidableEq

/-- Bounds test of `check_if_coordinates_make_sense`. -/
def check_if_coordinates_make_sense (cv : Canvas) (x y : Int) : Bool :=
  decide (0 ≤ x ∧ x < (cv.width : Int) ∧ 0 ≤ y ∧ y < (cv.height : Int))

/-- The C `find_spot` returns `&canvas[y * width + x]` or `NULL`; here the
pointer is represented by the flat buffer index. -/
def find_spot (cv : Canvas) (x y : Int) : Option Nat :=
  if check_if_coordinates_make_sense cv x y then
    some (y.toNat * cv.width + x.toNat)
  else
    none

/-- Paint at the cursor (`paint_stuff`): write the current brush character
and color through `find_spot`, or do nothing when it returns `NULL`.
(The `render_stuff` call only touches the screen, not program state.) -/
def paint_stuff (st : AppState) : AppState :=
  match find_spot st.canvas st.cursor_x st.cursor_y with
  | none => st
  | some i =>
      { st with canvas :=
          { st.canvas with cells :=
              (st.canvas.cells.set i
                ⟨st.brush_chars.getD st.brush_index 0, st.current_color⟩) } }

/-- The cell-filling loop of `start_with_blank_canvas`: indices `0 ≤ i < n`
are written in ascending order (`blankLoop c n` performs the writes for
`i < n`, the write at `i = n - 1` last). -/
def blankLoop (c : Nat) : Nat → List Cell → List Cell
  | 0, cs => cs
  | n + 1, cs => (blankLoop c n cs).set n ⟨32, c⟩

/-- Clear the canvas (`start_with_blank_canvas`): every one of the
`width * height` buffer slots is set to a space in the current color.
(The trailing `paint_entire_canvas` is rendering only.) -/
def start_with_blank_canvas (st : AppState) : AppState :=
  { st with canvas :=
      { st.canvas with cells :=
          (blankLoop st.current_color
            (st.canvas.width * st.canvas.height) st.canvas.cells) } }

/-- Sequential clamping of `move_brush`: first `if (v < 0) v = 0;`, then
`if (v >= limit) v = limit - 1;` (C `int` arithmetic). -/
def clampCoord (v : Int) (limit : Nat) : Int :=
  let v1 := if v < 0 then 0 else v
  if (limit : Int) ≤ v1 then (limit : Int) - 1 else v1

/-- Move the cursor (`move_brush`): clamp the target to the canvas, and only
when the clamped target differs from the current position update the cursor
and, with the pen down, auto-paint. -/
def move_brush (dx dy : Int) (st : AppState) : AppState :=
  let nx := clampCoord (st.cursor_x + dx) st.canvas.width
  let ny := clampCoord (st.cursor_y + dy) st.canvas.height
  if nx ≠ st.cursor_x ∨ ny ≠ st.cursor_y then
    let st1 := { st with cursor_x := nx, cursor_y := ny }
    if st.pen_down then paint_stuff st1 else st1
  else
    st

/-! Scanner primitives mirroring `fscanf` on a `List Char` stream. -/

/-- Decimal digit test (`isdigit` for the `%d` conversion). -/
def isDigitChar (c : Char) : Bool :=
  decide (48 ≤ c.toNat ∧ c.toNat ≤ 57)

/-- C locale `isspace`: space (32) or the control characters 9–13. -/
def isWsChar (c : Char) : Bool :=
  decide (c.toNat = 32 ∨ (9 ≤ c.toNat ∧ c.toNat ≤ 13))

/-- Skip the leading-whitespace phase of a `%d` conversion. -/
def skipWs : List Char → List Char
  | [] => []
  | c :: rest => if isWsChar c then skipWs rest else c :: rest

/-- Accumulate consecutive decimal digits (the digit loop of `%d`). -/
def scanNatAux (acc : Nat) : List Char → Nat × List Char
  | [] => (acc, [])
  | c :: rest =>
      if isDigitChar c then scanNatAux (10 * acc + (c.toNat - 48)) rest
      else (acc, c :: rest)

/-- True when the stream does not start with a decimal digit. -/
def noDigitHead : List Char → Bool
  | [] => true
  | c :: _ => !isDigitChar c

/-- Unsigned digit run of `%d`: fails unless at least one digit is present. -/
def scanNat (s : List Char) : Option (Nat × List Char) :=
  if noDigitHead s then none else some (scanNatAux 0 s)

/-- A full `%d` conversion: skip whitespace, optional sign, digit run. -/
def scanInt (s : List Char) : Option (Int × List Char) :=
  match skipWs s with
  | [] => none
  | c :: rest =>
      if c = '-' then
        match scanNat rest with
        | none => none
        | some (n, r) => some (-(n : Int), r)
      else if c = '+' then
        match scanNat rest with
        | none => none
        | some (n, r) => some ((n : Int), r)
      else
        match scanNat (c :: rest) with
        | none => none
        | some (n, r) => some ((n : Int), r)

/-- The `fscanf(f, "%d,%d", ...)` of the token loop: a `%d`, then the
literal `,` must match the very next character, then another `%d`. -/
def scanIntCommaInt (s : List Char) : Option ((Int × Int) × List Char) :=
  match scanInt s with
  | none => none
  | some (v1, r1) =>
      match r1 with
      | [] => none
      | c :: r2 =>
          if c = ',' then
            match scanInt r2 with
            | none => none
            | some (v2, r3) => some ((v1, v2), r3)
          else none

/-- The `do { ch = fgetc(f); } while (ch != '\n' && ch != EOF);` loop:
consume characters up to and including the next newline (or all of them). -/
def skipToEol : List Char → List Char
  | [] => []
  | c :: rest => if c = '\n' then rest else skipToEol rest

/-- The header read `fscanf(f, "%d %d", &file_width, &file_height)`:
two `%d` conversions (the format-string blank is subsumed by the second
conversion's own whitespace skip). -/
def parseHeader (s : List Char) : Option ((Int × Int) × List Char) :=
  match scanInt s with
  | none => none
  | some (a, r) =>
      match scanInt r with
      | none => none
      | some (b, r2) => some ((a, b), r2)

/-- Per-token validation of `load_masterpiece`: a color outside `[0,7]`
becomes 7, an ascii code outside `[0,255]` becomes `' '` (32). -/
def mkCellFromToken (cval aval : Int) : Cell :=
  { ch := if 0 ≤ aval ∧ aval ≤ 255 then aval.toNat else 32
    color := if 0 ≤ cval ∧ cval < 8 then cval.toNat else 7 }

/-- Inner token loop of `load_masterpiece` (`for x`): read `n` tokens with
`scanIntCommaInt`, failing the whole row when any read fails.  (The
`sneak_peek_at_file` call peeks and pushes back, leaving the stream
unchanged, so it has no counterpart here.) -/
def readRowTokens : Nat → List Char → Option (List Cell × List Char)
  | 0, s => some ([], s)
  | n + 1, s =>
      match scanIntCommaInt s with
      | none => none
      | some ((cval, aval), s1) =>
          match readRowTokens n s1 with
          | none => none
          | some (cs, s2) => some (mkCellFromToken cval aval :: cs, s2)

/-- Outer row loop of `load_masterpiece` (`for y`): after each row of `w`
tokens the remainder of the current input line is discarded. -/
def readRows (w : Nat) : Nat → List Char → Option (List Cell × List Char)
  | 0, s => some ([], s)
  | h + 1, s =>
      match readRowTokens w s with
      | none => none
      | some (row, s1) =>
          match readRows w h (skipToEol s1) with
          | none => none
          | some (rows, s2) => some (row ++ rows, s2)

/-- One iteration of the overlay copy loop: `dst = find_spot(x, y);
if (dst) *dst = *src;`. -/
def writeCell (cv : Canvas) (x y : Int) (c : Cell) : Canvas :=
  match find_spot cv x y with
  | none => cv
  | some i => { cv with cells := cv.cells.set i c }

/-- Inner overlay loop over `x` (ascending: `copyRow grid fw y n` performs
the writes for `x < n`). -/
def copyRow (grid : List Cell) (fw y : Nat) : Nat → Canvas → Canvas
  | 0, cv => cv
  | x + 1, cv =>
      writeCell (copyRow grid fw y x cv) (x : Int) (y : Int)
        (grid.getD (y * fw + x) defaultCell)

/-- Outer overlay loop over `y` (ascending). -/
def copyRows (grid : List Cell) (fw cw : Nat) : Nat → Canvas → Canvas
  | 0, cv => cv
  | y + 1, cv => copyRow grid fw y cw (copyRows grid fw cw y cv)

/-- Overlay of the parsed temporary grid onto the live canvas: the copied
region is `min(file_width, canvas_width) × min(file_height, canvas_height)`
anchored at `(0,0)`. -/
def overlayGrid (grid : List Cell) (fw fh : Nat) (cv : Canvas) : Canvas :=
  copyRows grid fw (min fw cv.width) (min fh cv.height) cv

/-- The whole of `load_masterpiece` on an already-opened text (when the file
cannot be opened the C function returns with the canvas untouched, which is
outside this pure model).  Header parse and bounds check, discard of the
rest of the header line, the row/token loops, then the overlay; every
failure path returns the canvas unchanged. -/
def load_masterpiece (text : List Char) (cv : Canvas) : Canvas :=
  match parseHeader text with
  | none => cv
  | some ((fw, fh), r) =>
      if fw ≤ 0 ∨ fh ≤ 0 ∨ 1000 < fw ∨ 1000 < fh then cv
      else
        match readRows fw.toNat fh.toNat (skipToEol r) with
        | none => cv
        | some (grid, _) => overlayGrid grid fw.toNat fh.toNat cv

/-! Serialization (`save_masterpiece`). -/

/-- Decimal digit character `48 + d` (only ever used with `d < 10`). -/
def digitChar (d : Nat) : Char := Char.ofNat (48 + d)

/-- Fuel-indexed decimal printing, most significant digit first, exactly as
`printf("%d", n)` renders a non-negative `int`. -/
def natReprAux : Nat → Nat → List Char
  | 0, _ => []
  | fuel + 1, n =>
      if n < 10 then [digitChar n]
      else natReprAux fuel (n / 10) ++ [digitChar (n % 10)]

/-- Decimal rendering of a natural number. -/
def natRepr (n : Nat) : List Char := natReprAux (n + 1) n

/-- One token of a saved row: `fprintf(f, "%d,%d", color, ch)`. -/
def serializeCell (c : Cell) : List Char :=
  natRepr c.color ++ ',' :: natRepr c.ch

/-- One saved row body: tokens separated by single spaces, no trailing
space (`if (x < width - 1) fputc(' ', f);`). -/
def serializeTokens : List Cell → List Char
  | [] => []
  | [c] => serializeCell c
  | c :: rest => serializeCell c ++ ' ' :: serializeTokens rest

/-- The cells of row `y` in increasing `x` order (what the save loop passes
through `find_spot(x, y)`). -/
def rowCells (cv : Canvas) (y : Nat) : List Cell :=
  (List.range cv.width).map (fun x => getCell cv x y)

/-- The saved row lines for the given row indices, each terminated by the
`fputc('\n', f)`. -/
def saveRows (cv : Canvas) : List Nat → List Char
  | [] => []
  | y :: ys => serializeTokens (rowCells cv y) ++ '\n' :: saveRows cv ys

/-- The whole of `save_masterpiece` (the text written when the file opens):
header line `"<width> <height>"`, then one line per row. -/
def save_masterpiece (cv : Canvas) : List Char :=
  natRepr cv.width ++ ' ' :: natRepr cv.height ++ '\n' ::
    saveRows cv (List.range cv.height)

/-! Specification-side text observers (independent of the scanners): used to
state claims about physical lines and space-separated tokens of a file. -/

/-- Split a character list on a separator; a trailing separator closes the
last field without opening an empty one, so a newline-terminated text has
exactly one entry per line. -/
def splitOnChar (sep : Char) : List Char → List (List Char)
  | [] => []
  | c :: rest =>
      if c = sep then [] :: splitOnChar sep rest
      else
        match splitOnChar sep rest with
        | [] => [[c]]
        | l :: ls => (c :: l) :: ls

/-- A well-formed `"<color>,<ascii>"` token: the whole chunk is consumed by
one `scanIntCommaInt`. -/
def isWellFormedToken (l : List Char) : Bool :=
  match scanIntCommaInt l with
  | some (_, r) => r.isEmpty
  | none => false

/-- Header line text `"<w> <h>"`. -/
def headerText (w h : Nat) : List Char :=
  natRepr w ++ ' ' :: natRepr h

/-- Row lines built from serialized token rows, each with arbitrary extra
content (junk) between the last token and the terminating newline. -/
def bodyWithJunk : List (List Cell × List Char) → List Char
  | [] => []
  | (r, j) :: rest => serializeTokens r ++ j ++ '\n' :: bodyWithJunk rest

/-- Junk that may trail a row without disturbing it: it holds no newline
(so the end-of-line skip removes all of it) and does not start with a digit
(so it cannot extend the final token of the row). -/
def junkOk (j : List Char) : Prop :=
  ('\n' ∉ j) ∧ noDigitHead j = true

instance : DecidablePred junkOk := fun j => by
  unfold junkOk; infer_instance

/-- Append of parsed rows (the shape `readRows` accumulates). -/
def flattenRows : List (List Cell) → List Cell
  | [] => []
  | r :: rs => r ++ flattenRows rs

/-- Counterexample text: the first data row of the declared 2-by-2 grid
holds a single token, yet the token reads of the loader cross the line
boundary and the load completes. -/
def textC1 : List Char := ("2 2\n1,35\n7,32 7,32\n3,42 5,33\n").toList

/-- A 2x2 canvas of blank white cells. -/
def cvC1 : Canvas := ⟨2, 2, List.replicate 4 defaultCell⟩


def brushInit : List Nat := [35, 42, 64, 37, 43, 111, 120, 46, 126, 38]

def stC7a : AppState :=
  { canvas := ⟨3, 2, List.replicate 6 ⟨32, 7⟩⟩, cursor_x := 0, cursor_y := 0,
    pen_down := false, brush_index := 0, current_color := 1,
    brush_chars := brushInit }

def stC7b : AppState :=
  { paint_stuff stC7a with cursor_x := 2, cursor_y := 1, brush_index := 1, current_color := 3 }

def cvC7 : Canvas := (paint_stuff stC7b).canvas

def textC7 : List Char := ("3 2\n1,35 7,32 7,32\n7,32 7,32 3,42\n").toList


/-- Reparse of a serialized cell: what one `"%d,%d"` token of a saved cell
decodes to after per-token validation. -/
def reparseCell (c : Cell) : Cell := mkCellFromToken (c.color : Int) (c.ch : Int)

/-- Example canvases and inputs used by the concrete witnesses below. -/
def textC1w : List Char := ("2 2\n1,35\n").toList

/-- A 2x1 canvas with two painted cells (all fields in range). -/
def cvC2 : Canvas := ⟨2, 1, [⟨35, 1⟩, ⟨64, 4⟩]⟩

/-- A blank 2x1 canvas of the same dimensions as `cvC2`. -/
def cvC2b : Canvas := ⟨2, 1, [⟨32, 7⟩, ⟨32, 7⟩]⟩

/-- A 2x2 file overlaid onto a 3x3 canvas. -/
def textC3 : List Char := ("2 2\n1,35 2,36\n3,42 5,33\n").toList

/-- A 3x3 canvas of blank white cells. -/
def cvC3 : Canvas := ⟨3, 3, List.replicate 9 defaultCell⟩

/-- The temporary grid parsed from `textC3`. -/
def gridC3 : List Cell := [⟨35, 1⟩, ⟨36, 2⟩, ⟨42, 3⟩, ⟨33, 5⟩]

/-- A header that declares a zero width. -/
def textC4 : List Char := ("0 5\n1,35\n").toList

/-- A 1x1 canvas holding a painted cell. -/
def cvC5 : Canvas := ⟨1, 1, [⟨65, 2⟩]⟩

/-- A state whose cursor sits outside the canvas. -/
def stC6 : AppState :=
  { canvas := ⟨2, 2, List.replicate 4 defaultCell⟩, cursor_x := -1, cursor_y := 0,
    pen_down := true, brush_index := 0, current_color := 3, brush_chars := brushInit }

/-- A state with a dirty 2x1 canvas and current color 5. -/
def stC8 : AppState :=
  { canvas := ⟨2, 1, [⟨35, 1⟩, ⟨64, 4⟩]⟩, cursor_x := 0, cursor_y := 0,
    pen_down := false, brush_index := 0, current_color := 5, brush_chars := brushInit }

/-- A pen-down state with the cursor at the top-left corner. -/
def stC9 : AppState :=
  { canvas := ⟨2, 2, List.replicate 4 defaultCell⟩, cursor_x := 0, cursor_y := 0,
    pen_down := true, brush_index := 0, current_color := 2, brush_chars := brushInit }

/-- One row of one serialized token followed by in-line junk. -/
def pairsC10 : List (List Cell × List Char) := [([⟨35, 1⟩], (" x7,7").toList)]

/-- A 1x1 canvas for the junk-insensitivity witness. -/
def cvC10 : Canvas := ⟨1, 1, [⟨40, 2⟩]⟩

/-! Generic list lemmas. -/

theorem listGetD_set {α : Type} (l : List α) (i j : Nat) (c d : α) :
    (l.set i c).getD j d = if i = j ∧ j < l.length then c else l.getD j d := by
  induction l generalizing i j with
  | nil => simp [List.set]
  | cons a t ih =>
      cases i with
      | zero =>
          cases j with
          | zero => simp
          | succ j => simp [List.set]
      | succ i =>
          cases j with
          | zero => simp [List.set]
          | succ j =>
              simp only [List.set, List.getD_cons_succ, List.length_cons, ih]
              by_cases hij : i = j ∧ j < t.length
              · rw [if_pos hij, if_pos (by omega)]
              · rw [if_neg hij, if_neg (by omega)]

theorem listGetD_rangeMap {α : Type} (f : Nat → α) (n y : Nat) (d : α) (h : y < n) :
    ((List.range n).map f).getD y d = f y := by
  rw [List.getD_eq_getElem _ _ (by simpa using h)]
  simp

theorem listGetD_mem {α : Type} (l : List α) (i : Nat) (d : α) (h : i < l.length) :
    l.getD i d ∈ l := by
  rw [List.getD_eq_getElem _ _ h]
  exact List.getElem_mem h

/-! Digit and decimal-printing lemmas. -/

theorem digitChar_isDigit (d : Nat) (h : d < 10) : isDigitChar (digitChar d) = true := by
  interval_cases d <;> decide

theorem digitChar_val (d : Nat) (h : d < 10) : (digitChar d).toNat - 48 = d := by
  interval_cases d <;> decide

theorem isWsChar_of_isDigitChar {c : Char} (h : isDigitChar c = true) :
    isWsChar c = false := by
  simp only [isDigitChar, decide_eq_true_eq] at h
  simp only [isWsChar, decide_eq_false_iff_not]
  omega

theorem natReprAux_digits : ∀ f n, n < f → ∀ c ∈ natReprAux f n, isDigitChar c = true := by
  intro f
  induction f with
  | zero => intro n h; omega
  | succ f ih =>
      intro n h c hc
      by_cases h10 : n < 10
      · simp only [natReprAux, if_pos h10, List.mem_singleton] at hc
        subst hc
        exact digitChar_isDigit n h10
      · simp only [natReprAux, if_neg h10, List.mem_append, List.mem_singleton] at hc
        rcases hc with hc | hc
        · have hdiv : n / 10 < f := by
            have := Nat.div_lt_self (show 0 < n by omega) (show 1 < 10 by omega)
            omega
          exact ih (n / 10) hdiv c hc
        · subst hc
          exact digitChar_isDigit _ (Nat.mod_lt _ (by omega))

theorem natReprAux_ne_nil (f n : Nat) (h : n < f) : natReprAux f n ≠ [] := by
  cases f with
  | zero => omega
  | succ f =>
      by_cases h10 : n < 10 <;> simp [natReprAux, h10]

theorem natReprAux_foldl :
    ∀ f n, n < f → ∀ acc,
      List.foldl (fun a c => 10 * a + (c.toNat - 48)) acc (natReprAux f n)
        = acc * 10 ^ (natReprAux f n).length + n := by
  intro f
  induction f with
  | zero => intro n h; omega
  | succ f ih =>
      intro n h acc
      by_cases h10 : n < 10
      · simp only [natReprAux, if_pos h10, List.foldl_cons, List.foldl_nil,
          List.length_singleton, pow_one]
        rw [digitChar_val n h10]
        ring
      · have hdiv : n / 10 < f := by
          have := Nat.div_lt_self (show 0 < n by omega) (show 1 < 10 by omega)
          omega
        simp only [natReprAux, if_neg h10, List.foldl_append, List.foldl_cons,
          List.foldl_nil, List.length_append, List.length_singleton]
        rw [ih (n / 10) hdiv acc, digitChar_val _ (Nat.mod_lt _ (by omega))]
        have hmod : 10 * (n / 10) + n % 10 = n := Nat.div_add_mod n 10
        rw [pow_succ]
        ring_nf
        omega

theorem natRepr_digits (n : Nat) : ∀ c ∈ natRepr n, isDigitChar c = true :=
  natReprAux_digits (n + 1) n (Nat.lt_succ_self n)

theorem natRepr_ne_nil (n : Nat) : natRepr n ≠ [] :=
  natReprAux_ne_nil _ _ (Nat.lt_succ_self n)

theorem natRepr_foldl (n : Nat) :
    List.foldl (fun a c => 10 * a + (c.toNat - 48)) 0 (natRepr n) = n := by
  have h := natReprAux_foldl (n + 1) n (Nat.lt_succ_self n) 0
  simpa [natRepr] using h

theorem scanNatAux_append (l s : List Char) (hl : ∀ c ∈ l, isDigitChar c = true)
    (hs : noDigitHead s = true) :
    ∀ acc, scanNatAux acc (l ++ s)
      = (List.foldl (fun a c => 10 * a + (c.toNat - 48)) acc l, s) := by
  induction l with
  | nil =>
      intro acc
      cases s with
      | nil => rfl
      | cons c r =>
          have hc : isDigitChar c = false := by
            simpa [noDigitHead] using hs
          simp [scanNatAux, hc]
  | cons c t ih =>
      intro acc
      have hc : isDigitChar c = true := hl c (List.mem_cons_self _ _)
      simp only [List.cons_append, scanNatAux, hc, if_true, List.foldl_cons]
      exact ih (fun d hd => hl d (List.mem_cons_of_mem _ hd)) _

theorem noDigitHead_natRepr (n : Nat) (s : List Char) :
    noDigitHead (natRepr n ++ s) = false := by
  rcases hrep : natRepr n with _ | ⟨c, t⟩
  · exact absurd hrep (natRepr_ne_nil n)
  · have h1 := natRepr_digits n c
    rw [hrep] at h1
    have hc : isDigitChar c = true := h1 (List.mem_cons_self _ _)
    simp [noDigitHead, hc]

theorem scanNat_natRepr (n : Nat) (s : List Char) (hs : noDigitHead s = true) :
    scanNat (natRepr n ++ s) = some (n, s) := by
  unfold scanNat
  rw [noDigitHead_natRepr n s]
  simp only [Bool.false_eq_true, if_false]
  rw [scanNatAux_append (natRepr n) s (natRepr_digits n) hs 0, natRepr_foldl n]

theorem skipWs_natRepr (n : Nat) (s : List Char) :
    skipWs (natRepr n ++ s) = natRepr n ++ s := by
  rcases hrep : natRepr n with _ | ⟨c, t⟩
  · exact absurd hrep (natRepr_ne_nil n)
  · have h1 := natRepr_digits n c
    rw [hrep] at h1
    have hc : isDigitChar c = true := h1 (List.mem_cons_self _ _)
    have hw : isWsChar c = false := isWsChar_of_isDigitChar hc
    simp [skipWs, hw]

theorem scanInt_natRepr (n : Nat) (s : List Char) (hs : noDigitHead s = true) :
    scanInt (natRepr n ++ s) = some ((n : Int), s) := by
  obtain ⟨c, t, hrep⟩ : ∃ c t, natRepr n = c :: t := by
    rcases h2 : natRepr n with _ | ⟨c, t⟩
    · exact absurd h2 (natRepr_ne_nil n)
    · exact ⟨c, t, rfl⟩
  have hc : isDigitChar c = true := by
    apply natRepr_digits n
    rw [hrep]
    exact List.mem_cons_self _ _
  have hminus : ¬(c = '-') := by
    intro h
    rw [h] at hc
    exact absurd hc (by decide)
  have hplus : ¬(c = '+') := by
    intro h
    rw [h] at hc
    exact absurd hc (by decide)
  have hshape : natRepr n ++ s = c :: (t ++ s) := by rw [hrep]; rfl
  unfold scanInt
  rw [skipWs_natRepr n s, hshape]
  simp only [if_neg hminus, if_neg hplus]
  rw [← hshape, scanNat_natRepr n s hs]

theorem noDigitHead_cons (c : Char) (l : List Char) :
    noDigitHead (c :: l) = !isDigitChar c := rfl

theorem skipWs_ws_cons (c : Char) (l : List Char) (h : isWsChar c = true) :
    skipWs (c :: l) = skipWs l := by
  simp [skipWs, h]

theorem scanInt_ws_cons (c : Char) (l : List Char) (h : isWsChar c = true) :
    scanInt (c :: l) = scanInt l := by
  unfold scanInt
  rw [skipWs_ws_cons c l h]

theorem scanIntCommaInt_ws_cons (c : Char) (l : List Char) (h : isWsChar c = true) :
    scanIntCommaInt (c :: l) = scanIntCommaInt l := by
  unfold scanIntCommaInt
  rw [scanInt_ws_cons c l h]

theorem scanIntCommaInt_serializeCell (c : Cell) (s : List Char)
    (hs : noDigitHead s = true) :
    scanIntCommaInt (serializeCell c ++ s)
      = some (((c.color : Int), (c.ch : Int)), s) := by
  have hshape : serializeCell c ++ s
      = natRepr c.color ++ (',' :: (natRepr c.ch ++ s)) := by
    simp [serializeCell]
  have hnd1 : noDigitHead (',' :: (natRepr c.ch ++ s)) = true := by
    rw [noDigitHead_cons]
    decide
  unfold scanIntCommaInt
  rw [hshape, scanInt_natRepr c.color _ hnd1]
  simp [scanInt_natRepr c.ch s hs]

theorem readRowTokens_succ_ws (c : Char) (h : isWsChar c = true) (n : Nat)
    (l : List Char) :
    readRowTokens (n + 1) (c :: l) = readRowTokens (n + 1) l := by
  simp only [readRowTokens]
  rw [scanIntCommaInt_ws_cons c l h]

theorem readRowTokens_step (n : Nat) (s1 s2 : List Char) (v1 v2 : Int)
    (h : scanIntCommaInt s1 = some ((v1, v2), s2)) :
    readRowTokens (n + 1) s1
      = match readRowTokens n s2 with
        | none => none
        | some (cs, s3) => some (mkCellFromToken v1 v2 :: cs, s3) := by
  simp only [readRowTokens, h]

theorem readRowTokens_serialize (r : List Cell) (s : List Char)
    (hs : noDigitHead s = true) :
    readRowTokens r.length (serializeTokens r ++ s)
      = some (r.map reparseCell, s) := by
  induction r with
  | nil => simp [readRowTokens, serializeTokens]
  | cons c rest ih =>
      cases rest with
      | nil =>
          simp only [serializeTokens, List.length_cons, List.length_nil]
          rw [readRowTokens_step 0 _ s _ _ (scanIntCommaInt_serializeCell c s hs)]
          rfl
      | cons d rest2 =>
          have hshape : serializeTokens (c :: d :: rest2) ++ s
              = serializeCell c ++ (' ' :: (serializeTokens (d :: rest2) ++ s)) := by
            simp [serializeTokens]
          have hnd1 : noDigitHead (' ' :: (serializeTokens (d :: rest2) ++ s)) = true := by
            rw [noDigitHead_cons]
            decide
          simp only [List.length_cons]
          rw [hshape]
          rw [readRowTokens_step (rest2.length + 1) _ _ _ _
            (scanIntCommaInt_serializeCell c _ hnd1)]
          rw [readRowTokens_succ_ws ' ' (by decide) rest2.length
            (serializeTokens (d :: rest2) ++ s)]
          have ih2 : readRowTokens (rest2.length + 1) (serializeTokens (d :: rest2) ++ s)
              = some ((d :: rest2).map reparseCell, s) := by
            simpa using ih
          rw [ih2]
          rfl

theorem skipToEol_append (l r : List Char) (h : '\n' ∉ l) :
    skipToEol (l ++ '\n' :: r) = r := by
  induction l with
  | nil => simp [skipToEol]
  | cons c t ih =>
      have hc : ¬(c = '\n') := fun hcc => h (hcc ▸ List.mem_cons_self _ _)
      simp only [List.cons_append, skipToEol, if_neg hc]
      exact ih (fun hm => h (List.mem_cons_of_mem _ hm))

theorem serializeCell_chars (c : Cell) :
    ∀ x ∈ serializeCell c, isDigitChar x = true ∨ x = ',' := by
  intro x hx
  simp only [serializeCell, List.mem_append, List.mem_cons] at hx
  rcases hx with hx | hx | hx
  · exact Or.inl (natRepr_digits _ _ hx)
  · exact Or.inr hx
  · exact Or.inl (natRepr_digits _ _ hx)

theorem serializeTokens_chars (r : List Cell) :
    ∀ x ∈ serializeTokens r, isDigitChar x = true ∨ x = ',' ∨ x = ' ' := by
  induction r with
  | nil => intro x hx; simp [serializeTokens] at hx
  | cons c rest ih =>
      cases rest with
      | nil =>
          intro x hx
          simp only [serializeTokens] at hx
          rcases serializeCell_chars c x hx with h | h
          · exact Or.inl h
          · exact Or.inr (Or.inl h)
      | cons d rest2 =>
          intro x hx
          simp only [serializeTokens, List.mem_append, List.mem_cons] at hx
          rcases hx with hx | hx | hx
          · rcases serializeCell_chars c x hx with h | h
            · exact Or.inl h
            · exact Or.inr (Or.inl h)
          · exact Or.inr (Or.inr hx)
          · rcases ih x (by simpa [serializeTokens] using hx) with h | h
            · exact Or.inl h
            · exact Or.inr h

theorem newline_not_mem_serializeTokens (r : List Cell) :
    '\n' ∉ serializeTokens r := by
  intro h
  rcases serializeTokens_chars r _ h with hc | hc | hc
  · exact absurd hc (by decide)
  · exact absurd hc (by decide)
  · exact absurd hc (by decide)

theorem noDigitHead_junk (j r : List Char) (hj : junkOk j) :
    noDigitHead (j ++ '\n' :: r) = true := by
  cases j with
  | nil =>
      rw [List.nil_append, noDigitHead_cons]
      decide
  | cons c t =>
      have h2 := hj.2
      rw [noDigitHead_cons] at h2
      rw [List.cons_append, noDigitHead_cons]
      exact h2

theorem skipToEol_junk (j r : List Char) (hj : junkOk j) :
    skipToEol (j ++ '\n' :: r) = r :=
  skipToEol_append j r hj.1

theorem readRows_step (w h : Nat) (s1 s2 : List Char) (row : List Cell)
    (hrow : readRowTokens w s1 = some (row, s2)) :
    readRows w (h + 1) s1
      = match readRows w h (skipToEol s2) with
        | none => none
        | some (rows, s3) => some (row ++ rows, s3) := by
  simp only [readRows, hrow]

theorem readRows_bodyWithJunk (w : Nat) (pairs : List (List Cell × List Char))
    (extra : List Char)
    (hw : ∀ p ∈ pairs, (p.1 : List Cell).length = w)
    (hj : ∀ p ∈ pairs, junkOk p.2) :
    readRows w pairs.length (bodyWithJunk pairs ++ extra)
      = some (flattenRows (pairs.map (fun p => p.1.map reparseCell)), extra) := by
  induction pairs with
  | nil => simp [readRows, bodyWithJunk, flattenRows]
  | cons p rest ih =>
      obtain ⟨r, j⟩ := p
      have hrw : r.length = w := hw (r, j) (List.mem_cons_self _ _)
      have hjj : junkOk j := hj (r, j) (List.mem_cons_self _ _)
      have hshape : bodyWithJunk ((r, j) :: rest) ++ extra
          = serializeTokens r ++ (j ++ '\n' :: (bodyWithJunk rest ++ extra)) := by
        simp [bodyWithJunk]
      have hnd : noDigitHead (j ++ '\n' :: (bodyWithJunk rest ++ extra)) = true :=
        noDigitHead_junk j _ hjj
      have htok : readRowTokens w (bodyWithJunk ((r, j) :: rest) ++ extra)
          = some (r.map reparseCell, j ++ '\n' :: (bodyWithJunk rest ++ extra)) := by
        rw [hshape, ← hrw]
        exact readRowTokens_serialize r _ hnd
      simp only [List.length_cons]
      rw [readRows_step w rest.length _ _ _ htok]
      rw [skipToEol_junk j _ hjj]
      rw [ih (fun q hq => hw q (List.mem_cons_of_mem _ hq))
        (fun q hq => hj q (List.mem_cons_of_mem _ hq))]
      rfl

theorem parseHeader_headerText (w h : Nat) (body : List Char) :
    parseHeader (headerText w h ++ '\n' :: body)
      = some (((w : Int), (h : Int)), '\n' :: body) := by
  have hshape : headerText w h ++ '\n' :: body
      = natRepr w ++ (' ' :: (natRepr h ++ '\n' :: body)) := by
    simp [headerText]
  have hnd1 : noDigitHead (' ' :: (natRepr h ++ '\n' :: body)) = true := by
    rw [noDigitHead_cons]
    decide
  have hnd2 : noDigitHead ('\n' :: body) = true := by
    rw [noDigitHead_cons]
    decide
  have hws : scanInt (' ' :: (natRepr h ++ '\n' :: body))
      = scanInt (natRepr h ++ '\n' :: body) :=
    scanInt_ws_cons _ _ (by decide)
  have h3 := scanInt_natRepr h ('\n' :: body) hnd2
  unfold parseHeader
  rw [hshape, scanInt_natRepr w _ hnd1]
  simp [hws, h3]

theorem saveRows_eq_bodyWithJunk (cv : Canvas) (ys : List Nat) :
    saveRows cv ys
      = bodyWithJunk (ys.map (fun y => (rowCells cv y, ([] : List Char)))) := by
  induction ys with
  | nil => rfl
  | cons y t ih =>
      simp only [saveRows, List.map_cons, bodyWithJunk, List.append_nil, ih]

theorem save_shape (cv : Canvas) :
    save_masterpiece cv
      = headerText cv.width cv.height ++ '\n' ::
          bodyWithJunk ((List.range cv.height).map
            (fun y => (rowCells cv y, ([] : List Char)))) := by
  unfold save_masterpiece headerText
  rw [saveRows_eq_bodyWithJunk]


theorem writeCell_width (cv : Canvas) (x y : Int) (c : Cell) :
    (writeCell cv x y c).width = cv.width := by
  rcases h : find_spot cv x y with _ | i <;> simp [writeCell, h]

theorem writeCell_height (cv : Canvas) (x y : Int) (c : Cell) :
    (writeCell cv x y c).height = cv.height := by
  rcases h : find_spot cv x y with _ | i <;> simp [writeCell, h]

theorem writeCell_length (cv : Canvas) (x y : Int) (c : Cell) :
    (writeCell cv x y c).cells.length = cv.cells.length := by
  rcases h : find_spot cv x y with _ | i <;> simp [writeCell, h]

theorem getCell_writeCell (cv : Canvas) (hlen : cv.cells.length = cv.width * cv.height)
    (a b : Nat) (ha : a < cv.width) (hb : b < cv.height) (c : Cell)
    (x y : Nat) (hx : x < cv.width) (hy : y < cv.height) :
    getCell (writeCell cv (a : Int) (b : Int) c) x y
      = if x = a ∧ y = b then c else getCell cv x y := by
  have hchk : check_if_coordinates_make_sense cv (a : Int) (b : Int) = true := by
    simp only [check_if_coordinates_make_sense, decide_eq_true_eq]
    refine ⟨by omega, by exact_mod_cast ha, by omega, by exact_mod_cast hb⟩
  have hfs : find_spot cv (a : Int) (b : Int) = some (b * cv.width + a) := by
    simp [find_spot, hchk]
  unfold writeCell
  rw [hfs]
  show (cv.cells.set (b * cv.width + a) c).getD (y * cv.width + x) defaultCell
      = if x = a ∧ y = b then c else getCell cv x y
  rw [listGetD_set]
  by_cases hxy : x = a ∧ y = b
  · obtain ⟨h1, h2⟩ := hxy
    subst h1
    subst h2
    have hlt : y * cv.width + x < cv.cells.length := by
      rw [hlen]
      have hstep : y * cv.width + x < (y + 1) * cv.width := by
        rw [Nat.succ_mul]
        omega
      have hle : (y + 1) * cv.width ≤ cv.height * cv.width :=
        Nat.mul_le_mul_right _ (by omega)
      calc y * cv.width + x < (y + 1) * cv.width := hstep
        _ ≤ cv.height * cv.width := hle
        _ = cv.width * cv.height := Nat.mul_comm _ _
    rw [if_pos ⟨rfl, hlt⟩, if_pos ⟨rfl, rfl⟩]
  · rw [if_neg hxy]
    rw [if_neg ?hne]
    · rfl
    case hne =>
      rintro ⟨heq, _⟩
      have hmx : (y * cv.width + x) % cv.width = x := by
        rw [Nat.add_comm, Nat.add_mul_mod_self_right]
        exact Nat.mod_eq_of_lt hx
      have hma : (b * cv.width + a) % cv.width = a := by
        rw [Nat.add_comm, Nat.add_mul_mod_self_right]
        exact Nat.mod_eq_of_lt ha
      have hax : x = a := by rw [← hmx, ← heq, hma]
      have hby : b * cv.width = y * cv.width := by omega
      have hb2 : b = y := Nat.eq_of_mul_eq_mul_right (by omega) hby
      exact hxy ⟨hax, hb2.symm⟩

theorem copyRow_width (grid : List Cell) (fw y n : Nat) (cv : Canvas) :
    (copyRow grid fw y n cv).width = cv.width := by
  induction n with
  | zero => rfl
  | succ n ih => simp [copyRow, writeCell_width, ih]

theorem copyRow_height (grid : List Cell) (fw y n : Nat) (cv : Canvas) :
    (copyRow grid fw y n cv).height = cv.height := by
  induction n with
  | zero => rfl
  | succ n ih => simp [copyRow, writeCell_height, ih]

theorem copyRow_length (grid : List Cell) (fw y n : Nat) (cv : Canvas) :
    (copyRow grid fw y n cv).cells.length = cv.cells.length := by
  induction n with
  | zero => rfl
  | succ n ih => simp [copyRow, writeCell_length, ih]

theorem getCell_copyRow (grid : List Cell) (fw : Nat) (y0 : Nat) (n : Nat)
    (cv : Canvas) (hlen : cv.cells.length = cv.width * cv.height)
    (hn : n ≤ cv.width) (hy0 : y0 < cv.height)
    (x y : Nat) (hx : x < cv.width) (hy : y < cv.height) :
    getCell (copyRow grid fw y0 n cv) x y
      = if y = y0 ∧ x < n then grid.getD (y0 * fw + x) defaultCell
        else getCell cv x y := by
  induction n with
  | zero =>
      simp only [copyRow]
      rw [if_neg (by omega)]
  | succ n ih =>
      have hw1 : (copyRow grid fw y0 n cv).width = cv.width := copyRow_width ..
      have hh1 : (copyRow grid fw y0 n cv).height = cv.height := copyRow_height ..
      have hl1 : (copyRow grid fw y0 n cv).cells.length
          = (copyRow grid fw y0 n cv).width * (copyRow grid fw y0 n cv).height := by
        rw [hw1, hh1, copyRow_length]
        exact hlen
      have hwc := getCell_writeCell (copyRow grid fw y0 n cv) hl1 n y0
        (by omega) (by omega) (grid.getD (y0 * fw + n) defaultCell) x y
        (by omega) (by omega)
      simp only [copyRow]
      rw [hwc, ih (by omega)]
      by_cases hcase : y = y0 ∧ x < n + 1
      · rw [if_pos hcase]
        by_cases hxn : x = n
        · rw [if_pos ⟨hxn, hcase.1⟩, hxn]
        · rw [if_neg (fun hh => hxn hh.1), if_pos ⟨hcase.1, by omega⟩]
      · rw [if_neg hcase, if_neg (fun hh => hcase ⟨hh.2, by omega⟩),
          if_neg (fun hh => hcase ⟨hh.1, by omega⟩)]

theorem copyRows_width (grid : List Cell) (fw cw m : Nat) (cv : Canvas) :
    (copyRows grid fw cw m cv).width = cv.width := by
  induction m with
  | zero => rfl
  | succ m ih => simp [copyRows, copyRow_width, ih]

theorem copyRows_height (grid : List Cell) (fw cw m : Nat) (cv : Canvas) :
    (copyRows grid fw cw m cv).height = cv.height := by
  induction m with
  | zero => rfl
  | succ m ih => simp [copyRows, copyRow_height, ih]

theorem copyRows_length (grid : List Cell) (fw cw m : Nat) (cv : Canvas) :
    (copyRows grid fw cw m cv).cells.length = cv.cells.length := by
  induction m with
  | zero => rfl
  | succ m ih => simp [copyRows, copyRow_length, ih]

theorem getCell_copyRows (grid : List Cell) (fw cw m : Nat) (cv : Canvas)
    (hlen : cv.cells.length = cv.width * cv.height)
    (hcw : cw ≤ cv.width) (hm : m ≤ cv.height)
    (x y : Nat) (hx : x < cv.width) (hy : y < cv.height) :
    getCell (copyRows grid fw cw m cv) x y
      = if y < m ∧ x < cw then grid.getD (y * fw + x) defaultCell
        else getCell cv x y := by
  induction m with
  | zero =>
      simp only [copyRows]
      rw [if_neg (by omega)]
  | succ m ih =>
      have hw1 : (copyRows grid fw cw m cv).width = cv.width := copyRows_width ..
      have hh1 : (copyRows grid fw cw m cv).height = cv.height := copyRows_height ..
      have hl1 : (copyRows grid fw cw m cv).cells.length
          = (copyRows grid fw cw m cv).width * (copyRows grid fw cw m cv).height := by
        rw [hw1, hh1, copyRows_length]
        exact hlen
      have hrow := getCell_copyRow grid fw m cw (copyRows grid fw cw m cv) hl1
        (by omega) (by omega) x y (by omega) (by omega)
      simp only [copyRows]
      rw [hrow, ih (by omega)]
      by_cases hcase : y < m + 1 ∧ x < cw
      · by_cases hym : y = m
        · subst hym
          rw [if_pos ⟨rfl, hcase.2⟩, if_pos hcase]
        · rw [if_neg (fun hh => hym hh.1), if_pos ⟨by omega, hcase.2⟩,
            if_pos hcase]
      · rw [if_neg (fun hh => hcase ⟨by omega, hh.2⟩),
          if_neg (fun hh => hcase ⟨by omega, hh.2⟩), if_neg hcase]

theorem load_success (text : List Char) (cv : Canvas) (fw fh : Int)
    (r : List Char) (grid : List Cell) (rest : List Char)
    (hh : parseHeader text = some ((fw, fh), r))
    (hdim : ¬(fw ≤ 0 ∨ fh ≤ 0 ∨ 1000 < fw ∨ 1000 < fh))
    (hrows : readRows fw.toNat fh.toNat (skipToEol r) = some (grid, rest)) :
    load_masterpiece text cv = overlayGrid grid fw.toNat fh.toNat cv := by
  unfold load_masterpiece
  rw [hh]
  simp only [if_neg hdim]
  rw [hrows]

theorem load_width (text : List Char) (cv : Canvas) :
    (load_masterpiece text cv).width = cv.width := by
  unfold load_masterpiece overlayGrid
  split
  · rfl
  · split
    · rfl
    · split
      · rfl
      · exact copyRows_width ..

theorem load_height (text : List Char) (cv : Canvas) :
    (load_masterpiece text cv).height = cv.height := by
  unfold load_masterpiece overlayGrid
  split
  · rfl
  · split
    · rfl
    · split
      · rfl
      · exact copyRows_height ..

theorem rowIndex_lt (w h x y : Nat) (hx : x < w) (hy : y < h) :
    y * w + x < w * h := by
  have h1 : y * w + x < (y + 1) * w := by
    rw [Nat.succ_mul]
    omega
  have h2 : (y + 1) * w ≤ h * w := Nat.mul_le_mul_right _ (by omega)
  have h3 : h * w = w * h := Nat.mul_comm h w
  omega

theorem getCell_mem (cv : Canvas) (x y : Nat) (hx : x < cv.width)
    (hy : y < cv.height) (hlen : cv.cells.length = cv.width * cv.height) :
    getCell cv x y ∈ cv.cells := by
  unfold getCell
  apply listGetD_mem
  rw [hlen]
  exact rowIndex_lt _ _ _ _ hx hy

theorem reparseCell_eq (c : Cell) (hcol : c.color < 8) (hch : c.ch ≤ 255) :
    reparseCell c = c := by
  obtain ⟨ch, col⟩ := c
  simp only [reparseCell, mkCellFromToken]
  have h1 : 0 ≤ (ch : Int) ∧ (ch : Int) ≤ 255 :=
    ⟨Int.natCast_nonneg _, by exact_mod_cast hch⟩
  have h2 : 0 ≤ (col : Int) ∧ (col : Int) < 8 :=
    ⟨Int.natCast_nonneg _, by exact_mod_cast hcol⟩
  rw [if_pos h1, if_pos h2]
  simp

theorem rowCells_length (cv : Canvas) (y : Nat) :
    (rowCells cv y).length = cv.width := by
  simp [rowCells]

theorem rowCells_getD (cv : Canvas) (y x : Nat) (hx : x < cv.width) (d : Cell) :
    (rowCells cv y).getD x d = getCell cv x y :=
  listGetD_rangeMap _ _ _ _ hx

theorem reparse_rowCells (cv : Canvas) (y : Nat) (hy : y < cv.height)
    (hlen : cv.cells.length = cv.width * cv.height)
    (hcells : ∀ c ∈ cv.cells, c.color < 8 ∧ c.ch ≤ 255) :
    (rowCells cv y).map reparseCell = rowCells cv y := by
  have hpt : ∀ c ∈ rowCells cv y, reparseCell c = c := by
    intro c hc
    simp only [rowCells, List.mem_map, List.mem_range] at hc
    obtain ⟨x, hx, rfl⟩ := hc
    obtain ⟨h1, h2⟩ := hcells _ (getCell_mem cv x y hx hy hlen)
    exact reparseCell_eq _ h1 h2
  conv_rhs => rw [← List.map_id (rowCells cv y)]
  exact List.map_congr_left hpt

theorem flattenRows_getD (L : List (List Cell)) (w : Nat)
    (hL : ∀ r ∈ L, r.length = w) (x y : Nat) (hx : x < w) (hy : y < L.length)
    (d : Cell) :
    (flattenRows L).getD (y * w + x) d = (L.getD y []).getD x d := by
  induction L generalizing y with
  | nil => simp at hy
  | cons r rest ih =>
      have hr : r.length = w := hL r (List.mem_cons_self _ _)
      cases y with
      | zero =>
          simp only [flattenRows, Nat.zero_mul, Nat.zero_add, List.getD_cons_zero]
          exact List.getD_append _ _ _ _ (by omega)
      | succ y =>
          simp only [flattenRows, List.getD_cons_succ]
          have hlen : r.length ≤ (y + 1) * w + x := by
            have hs : (y + 1) * w = y * w + w := Nat.succ_mul y w
            omega
          rw [List.getD_append_right _ _ _ _ hlen]
          have hidx : (y + 1) * w + x - r.length = y * w + x := by
            have hs : (y + 1) * w = y * w + w := Nat.succ_mul y w
            omega
          rw [hidx]
          exact ih (fun q hq => hL q (List.mem_cons_of_mem _ hq)) y
            (by simp only [List.length_cons] at hy; omega)

theorem blankLoop_length (c : Nat) (n : Nat) (cs : List Cell) :
    (blankLoop c n cs).length = cs.length := by
  induction n with
  | zero => rfl
  | succ n ih => simp [blankLoop, ih]

theorem blankLoop_getD (c : Nat) (n : Nat) (cs : List Cell) (i : Nat)
    (hi : i < n) (hn : n ≤ cs.length) (d : Cell) :
    (blankLoop c n cs).getD i d = ⟨32, c⟩ := by
  induction n with
  | zero => omega
  | succ n ih =>
      simp only [blankLoop]
      rw [listGetD_set]
      by_cases hin : i = n
      · rw [if_pos ⟨hin.symm, by rw [blankLoop_length]; omega⟩]
      · rw [if_neg (fun hh => hin hh.1.symm)]
        exact ih (by omega) (by omega)

theorem splitOnChar_sep_cons (sep : Char) (l : List Char) :
    splitOnChar sep (sep :: l) = [] :: splitOnChar sep l := by
  simp [splitOnChar]

theorem splitOnChar_cons_ne (sep c : Char) (l : List Char) (hc : ¬(c = sep)) :
    splitOnChar sep (c :: l)
      = match splitOnChar sep l with
        | [] => [[c]]
        | x :: xs => (c :: x) :: xs := by
  simp [splitOnChar, if_neg hc]

theorem splitOnChar_append (sep : Char) (l1 l2 : List Char) (h : sep ∉ l1) :
    splitOnChar sep (l1 ++ sep :: l2) = l1 :: splitOnChar sep l2 := by
  induction l1 with
  | nil => simp [splitOnChar]
  | cons c t ih =>
      have hc : ¬(c = sep) := fun hcc => h (hcc ▸ List.mem_cons_self _ _)
      have ih2 := ih (fun hm => h (List.mem_cons_of_mem _ hm))
      rw [List.cons_append, splitOnChar_cons_ne sep c _ hc, ih2]

theorem splitOnChar_nosep (sep : Char) (l : List Char) (h : sep ∉ l)
    (hne : l ≠ []) : splitOnChar sep l = [l] := by
  induction l with
  | nil => exact absurd rfl hne
  | cons c t ih =>
      have hc : ¬(c = sep) := fun hcc => h (hcc ▸ List.mem_cons_self _ _)
      cases t with
      | nil => simp [splitOnChar, if_neg hc]
      | cons d t2 =>
          have ih2 := ih (fun hm => h (List.mem_cons_of_mem _ hm)) (by simp)
          rw [splitOnChar_cons_ne sep c _ hc, ih2]

theorem newline_not_mem_headerText (w h : Nat) : '\n' ∉ headerText w h := by
  intro hm
  simp only [headerText, List.mem_append, List.mem_cons] at hm
  rcases hm with hm | hm | hm
  · exact absurd (natRepr_digits _ _ hm) (by decide)
  · exact absurd hm (by decide)
  · exact absurd (natRepr_digits _ _ hm) (by decide)

theorem space_not_mem_serializeCell (c : Cell) : ' ' ∉ serializeCell c := by
  intro hm
  rcases serializeCell_chars c _ hm with hd | hd
  · exact absurd hd (by decide)
  · exact absurd hd (by decide)

theorem serializeCell_ne_nil (c : Cell) : serializeCell c ≠ [] := by
  simp [serializeCell]

theorem splitOnChar_serializeTokens (r : List Cell) :
    splitOnChar ' ' (serializeTokens r) = r.map serializeCell := by
  induction r with
  | nil => rfl
  | cons c rest ih =>
      cases rest with
      | nil =>
          simp only [serializeTokens, List.map_cons, List.map_nil]
          exact splitOnChar_nosep ' ' _ (space_not_mem_serializeCell c)
            (serializeCell_ne_nil c)
      | cons d rest2 =>
          simp only [serializeTokens, List.map_cons] at ih ⊢
          rw [splitOnChar_append ' ' _ _ (space_not_mem_serializeCell c), ih]

theorem splitOnChar_saveRows (cv : Canvas) (ys : List Nat) :
    splitOnChar '\n' (saveRows cv ys)
      = ys.map (fun y => serializeTokens (rowCells cv y)) := by
  induction ys with
  | nil => rfl
  | cons y t ih =>
      simp only [saveRows, List.map_cons]
      rw [splitOnChar_append '\n' _ _ (newline_not_mem_serializeTokens _), ih]

theorem save_eq_header_saveRows (cv : Canvas) :
    save_masterpiece cv
      = headerText cv.width cv.height ++ '\n' :: saveRows cv (List.range cv.height) := by
  rw [save_shape cv, saveRows_eq_bodyWithJunk]

theorem splitOnChar_save (cv : Canvas) :
    splitOnChar '\n' (save_masterpiece cv)
      = headerText cv.width cv.height ::
          (List.range cv.height).map (fun y => serializeTokens (rowCells cv y)) := by
  rw [save_eq_header_saveRows cv,
    splitOnChar_append '\n' _ _ (newline_not_mem_headerText _ _),
    splitOnChar_saveRows]

/-- C1 (amended): with a well-formed accepted header, the load aborts with
the canvas left completely unchanged whenever reading the declared
`width x height` tokens from the whitespace-separated token stream fails —
an un-parseable token at a read position, or too few tokens remaining.  A
physical row holding fewer than `width` tokens does not by itself abort the
load, because the token reads skip newlines and may consume tokens from the
following lines (see the counterexample). -/
theorem spec_C1_parse_abort (text : List Char) (cv : Canvas) (fw fh : Int)
    (r : List Char)
    (hheader : parseHeader text = some ((fw, fh), r))
    (hdim : ¬(fw ≤ 0 ∨ fh ≤ 0 ∨ 1000 < fw ∨ 1000 < fh))
    (hfail : readRows fw.toNat fh.toNat (skipToEol r) = none) :
    load_masterpiece text cv = cv := by
  unfold load_masterpiece
  rw [hheader]
  simp only [if_neg hdim]
  rw [hfail]

/-- C1 (counterexample): the input `"2 2\n1,35\n7,32 7,32\n3,42 5,33\n"`
declares a 2x2 grid and its first data row holds a single well-formed token
(fewer than the declared width 2), yet the load does not abort: it changes
the canvas, because the token reads cross the line boundary. -/
theorem spec_C1_counterexample :
    (parseHeader textC1).map Prod.fst = some (2, 2)
      ∧ ((splitOnChar ' ' ((splitOnChar '\n' textC1).getD 1 [])).filter
          isWellFormedToken).length < 2
      ∧ load_masterpiece textC1 cvC1 ≠ cvC1 := by
  refine ⟨by decide, by decide, by decide⟩

theorem spec_C1_parse_abort_witness :
    load_masterpiece textC1w cvC1 = cvC1 :=
  spec_C1_parse_abort textC1w cvC1 2 2 (("\n1,35\n").toList)
    (by decide) (by decide) (by decide)

/-- C4: a header that does not parse as two integers, or whose declared
width or height is non-positive or exceeds 1000, makes the load abort with
the canvas unchanged. -/
theorem spec_C4_header_reject (text : List Char) (cv : Canvas)
    (h : parseHeader text = none
      ∨ ∃ fw fh r, parseHeader text = some ((fw, fh), r)
          ∧ (fw ≤ 0 ∨ fh ≤ 0 ∨ 1000 < fw ∨ 1000 < fh)) :
    load_masterpiece text cv = cv := by
  unfold load_masterpiece
  rcases h with h | ⟨fw, fh, r, hp, hbad⟩
  · rw [h]
  · rw [hp]
    simp only [if_pos hbad]

theorem spec_C4_header_reject_witness :
    load_masterpiece textC4 cvC1 = cvC1 :=
  spec_C4_header_reject textC4 cvC1
    (Or.inr ⟨0, 5, ("\n1,35\n").toList, by decide, Or.inl (by decide)⟩)

/-- C5: per-token validation coerces a color outside `[0,7]` to 7 and an
ascii code outside `[0,255]` to 32, keeps in-range values unchanged, and
such out-of-range values do not abort the load: the file `"1 1\n9,300\n"`
loads successfully and produces the cell with color 7 and character 32. -/
theorem spec_C5_coercion :
    (∀ cval aval : Int, (cval < 0 ∨ 7 < cval) → (mkCellFromToken cval aval).color = 7)
      ∧ (∀ cval aval : Int, (aval < 0 ∨ 255 < aval) → (mkCellFromToken cval aval).ch = 32)
      ∧ (∀ cval aval : Int, 0 ≤ cval → cval ≤ 7 →
          (mkCellFromToken cval aval).color = cval.toNat)
      ∧ (∀ cval aval : Int, 0 ≤ aval → aval ≤ 255 →
          (mkCellFromToken cval aval).ch = aval.toNat)
      ∧ load_masterpiece (("1 1\n9,300\n").toList) cvC5 = ⟨1, 1, [⟨32, 7⟩]⟩ := by
  refine ⟨?_, ?_, ?_, ?_, by decide⟩
  · intro cval aval h
    simp only [mkCellFromToken]
    rw [if_neg (by omega)]
  · intro cval aval h
    simp only [mkCellFromToken]
    rw [if_neg (by omega)]
  · intro cval aval h1 h2
    simp only [mkCellFromToken]
    rw [if_pos ⟨h1, by omega⟩]
  · intro cval aval h1 h2
    simp only [mkCellFromToken]
    rw [if_pos ⟨h1, h2⟩]

theorem spec_C5_coercion_witness :
    (mkCellFromToken 9 300).color = 7 ∧ (mkCellFromToken 9 300).ch = 32 :=
  ⟨spec_C5_coercion.1 9 300 (Or.inr (by omega)),
    spec_C5_coercion.2.1 9 300 (Or.inr (by omega))⟩

/-- C6: for a cursor outside `[0,width) x [0,height)`, `find_spot` returns
`NULL` (`none`) and `paint_stuff` leaves the whole state — in particular
every cell of the backing buffer — unchanged. -/
theorem spec_C6_oob (st : AppState)
    (h : st.cursor_x < 0 ∨ (st.canvas.width : Int) ≤ st.cursor_x
        ∨ st.cursor_y < 0 ∨ (st.canvas.height : Int) ≤ st.cursor_y) :
    find_spot st.canvas st.cursor_x st.cursor_y = none ∧ paint_stuff st = st := by
  have hchk : check_if_coordinates_make_sense st.canvas st.cursor_x st.cursor_y
      = false := by
    simp only [check_if_coordinates_make_sense, decide_eq_false_iff_not]
    omega
  have hfs : find_spot st.canvas st.cursor_x st.cursor_y = none := by
    simp [find_spot, hchk]
  refine ⟨hfs, ?_⟩
  unfold paint_stuff
  rw [hfs]

theorem spec_C6_oob_witness :
    find_spot stC6.canvas stC6.cursor_x stC6.cursor_y = none
      ∧ paint_stuff stC6 = stC6 :=
  spec_C6_oob stC6 (Or.inl (by decide))

/-- C8: clearing the canvas sets every one of the `width * height` buffer
cells to a space in the current color, so no cell keeps its previous
character or color; the buffer length is unchanged. -/
theorem spec_C8_clear (st : AppState)
    (hlen : st.canvas.cells.length = st.canvas.width * st.canvas.height) :
    (start_with_blank_canvas st).canvas.cells.length
        = st.canvas.width * st.canvas.height
      ∧ ∀ i, i < st.canvas.width * st.canvas.height →
          (start_with_blank_canvas st).canvas.cells.getD i defaultCell
            = ⟨32, st.current_color⟩ := by
  unfold start_with_blank_canvas
  refine ⟨?_, ?_⟩
  · simp only [blankLoop_length]
    exact hlen
  · intro i hi
    exact blankLoop_getD _ _ _ _ hi (by omega) _

theorem spec_C8_clear_witness :
    (start_with_blank_canvas stC8).canvas.cells.getD 1 defaultCell
      = ⟨32, stC8.current_color⟩ :=
  (spec_C8_clear stC8 (by decide)).2 1 (by decide)

/-- C9: when the clamped target of a cursor move equals the current cursor
position, `move_brush` changes nothing at all — the cursor stays and no
cell is painted, regardless of the pen state. -/
theorem spec_C9_move_noop (st : AppState) (dx dy : Int)
    (hx : clampCoord (st.cursor_x + dx) st.canvas.width = st.cursor_x)
    (hy : clampCoord (st.cursor_y + dy) st.canvas.height = st.cursor_y) :
    move_brush dx dy st = st := by
  unfold move_brush
  rw [hx, hy]
  simp

theorem spec_C9_move_noop_witness : move_brush (-1) 0 stC9 = stC9 :=
  spec_C9_move_noop stC9 (-1) 0 (by decide) (by decide)

/-- C3: a fully successful load of a `fw x fh` file overlays exactly the
top-left `min(fw, width) x min(fh, height)` region of the canvas with the
corresponding cells of the parsed temporary grid, leaves every other canvas
cell and the canvas dimensions unchanged, and discards file content outside
the canvas bounds. -/
theorem spec_C3_overlay (text : List Char) (cv : Canvas) (fw fh : Int)
    (r rest : List Char) (grid : List Cell)
    (hheader : parseHeader text = some ((fw, fh), r))
    (hdim : ¬(fw ≤ 0 ∨ fh ≤ 0 ∨ 1000 < fw ∨ 1000 < fh))
    (hrows : readRows fw.toNat fh.toNat (skipToEol r) = some (grid, rest))
    (hlen : cv.cells.length = cv.width * cv.height) :
    (load_masterpiece text cv).width = cv.width
      ∧ (load_masterpiece text cv).height = cv.height
      ∧ ∀ x y, x < cv.width → y < cv.height →
          getCell (load_masterpiece text cv) x y
            = if x < min fw.toNat cv.width ∧ y < min fh.toNat cv.height then
                grid.getD (y * fw.toNat + x) defaultCell
              else getCell cv x y := by
  refine ⟨load_width .., load_height .., ?_⟩
  intro x y hx hy
  rw [load_success text cv fw fh r grid rest hheader hdim hrows]
  unfold overlayGrid
  rw [getCell_copyRows _ _ _ _ cv hlen (Nat.min_le_right _ _)
    (Nat.min_le_right _ _) x y hx hy]
  by_cases hc : y < min fh.toNat cv.height ∧ x < min fw.toNat cv.width
  · rw [if_pos hc, if_pos ⟨hc.2, hc.1⟩]
  · rw [if_neg hc, if_neg (fun hh => hc ⟨hh.2, hh.1⟩)]

theorem spec_C3_overlay_witness :
    getCell (load_masterpiece textC3 cvC3) 2 2
      = if 2 < min (Int.toNat 2) cvC3.width ∧ 2 < min (Int.toNat 2) cvC3.height
        then gridC3.getD (2 * Int.toNat 2 + 2) defaultCell
        else getCell cvC3 2 2 :=
  (spec_C3_overlay textC3 cvC3 2 2 (("\n1,35 2,36\n3,42 5,33\n").toList) []
    gridC3 (by decide) (by decide) (by decide) (by decide)).2.2 2 2
    (by decide) (by decide)

/-- C10: with an accepted header, content of a row line beyond its `width`
tokens (any newline-free junk that does not begin with a digit, including
further well-formed tokens) and any content after the declared `height` of
rows are discarded: the load behaves exactly as it does on the cleaned text
with the junk and the trailing content removed. -/
theorem spec_C10_extra_ignored (w h : Nat) (hw0 : 0 < w) (hwle : w ≤ 1000)
    (hh0 : 0 < h) (hhle : h ≤ 1000)
    (pairs : List (List Cell × List Char)) (extra : List Char) (cv : Canvas)
    (hplen : pairs.length = h)
    (hpw : ∀ p ∈ pairs, (p.1 : List Cell).length = w)
    (hpj : ∀ p ∈ pairs, junkOk p.2) :
    load_masterpiece (headerText w h ++ '\n' :: (bodyWithJunk pairs ++ extra)) cv
      = load_masterpiece (headerText w h ++ '\n' ::
          bodyWithJunk (pairs.map (fun p => (p.1, ([] : List Char))))) cv := by
  have hdim : ¬((w : Int) ≤ 0 ∨ (h : Int) ≤ 0 ∨ 1000 < (w : Int)
      ∨ 1000 < (h : Int)) := by
    omega
  have hskip1 : skipToEol ('\n' :: (bodyWithJunk pairs ++ extra))
      = bodyWithJunk pairs ++ extra := by
    simp [skipToEol]
  have hrows1 : readRows (Int.toNat (w : Int)) (Int.toNat (h : Int))
      (skipToEol ('\n' :: (bodyWithJunk pairs ++ extra)))
      = some (flattenRows (pairs.map (fun p => p.1.map reparseCell)), extra) := by
    rw [hskip1, Int.toNat_natCast, Int.toNat_natCast, ← hplen]
    exact readRows_bodyWithJunk w pairs extra hpw hpj
  rw [load_success _ cv (w : Int) (h : Int) _ _ extra
    (parseHeader_headerText w h _) hdim hrows1]
  have hpw2 : ∀ p ∈ pairs.map (fun p => (p.1, ([] : List Char))),
      (p.1 : List Cell).length = w := by
    intro p hp
    simp only [List.mem_map] at hp
    obtain ⟨q, hq, rfl⟩ := hp
    exact hpw q hq
  have hpj2 : ∀ p ∈ pairs.map (fun p => (p.1, ([] : List Char))), junkOk p.2 := by
    intro p hp
    simp only [List.mem_map] at hp
    obtain ⟨q, hq, rfl⟩ := hp
    exact ⟨by simp, rfl⟩
  have hplen2 : (pairs.map (fun p => (p.1, ([] : List Char)))).length = h := by
    simp [hplen]
  have hskip2 : skipToEol ('\n' ::
      bodyWithJunk (pairs.map (fun p => (p.1, ([] : List Char)))))
      = bodyWithJunk (pairs.map (fun p => (p.1, ([] : List Char)))) := by
    simp [skipToEol]
  have hrows2 : readRows (Int.toNat (w : Int)) (Int.toNat (h : Int))
      (skipToEol ('\n' :: bodyWithJunk (pairs.map (fun p => (p.1, ([] : List Char))))))
      = some (flattenRows (pairs.map (fun p => p.1.map reparseCell)), []) := by
    rw [hskip2, Int.toNat_natCast, Int.toNat_natCast, ← hplen2]
    have h0 := readRows_bodyWithJunk w (pairs.map (fun p => (p.1, ([] : List Char))))
      [] hpw2 hpj2
    rw [List.append_nil] at h0
    rw [h0, List.map_map]
    rfl
  rw [load_success _ cv (w : Int) (h : Int) _ _ []
    (parseHeader_headerText w h _) hdim hrows2]

theorem spec_C10_extra_ignored_witness :
    load_masterpiece (headerText 1 1 ++ '\n' ::
        (bodyWithJunk pairsC10 ++ (("9,9\n").toList))) cvC10
      = load_masterpiece (headerText 1 1 ++ '\n' ::
          bodyWithJunk (pairsC10.map (fun p => (p.1, ([] : List Char))))) cvC10 :=
  spec_C10_extra_ignored 1 1 (by decide) (by decide) (by decide) (by decide)
    pairsC10 (("9,9\n").toList) cvC10 (by decide) (by decide) (by decide)

/-- C2: saving a canvas whose cells all carry a color in `[0,7]` and a
character code in `[0,255]` and loading the produced text onto a canvas of
identical dimensions reproduces the original canvas exactly, cell for
cell. -/
theorem spec_C2_roundtrip (cv cv2 : Canvas)
    (hw : cv2.width = cv.width) (hh : cv2.height = cv.height)
    (hwpos : 0 < cv.width) (hwle : cv.width ≤ 1000)
    (hhpos : 0 < cv.height) (hhle : cv.height ≤ 1000)
    (hlen : cv.cells.length = cv.width * cv.height)
    (hlen2 : cv2.cells.length = cv2.width * cv2.height)
    (hcells : ∀ c ∈ cv.cells, c.color < 8 ∧ c.ch ≤ 255) :
    ∀ x y, x < cv.width → y < cv.height →
      getCell (load_masterpiece (save_masterpiece cv) cv2) x y = getCell cv x y := by
  intro x y hx hy
  have hpw : ∀ p ∈ (List.range cv.height).map
      (fun yy => (rowCells cv yy, ([] : List Char))),
      (p.1 : List Cell).length = cv.width := by
    intro p hp
    simp only [List.mem_map, List.mem_range] at hp
    obtain ⟨yy, _, rfl⟩ := hp
    exact rowCells_length cv yy
  have hpj : ∀ p ∈ (List.range cv.height).map
      (fun yy => (rowCells cv yy, ([] : List Char))), junkOk p.2 := by
    intro p hp
    simp only [List.mem_map, List.mem_range] at hp
    obtain ⟨yy, _, rfl⟩ := hp
    exact ⟨by simp, rfl⟩
  have h0 := readRows_bodyWithJunk cv.width
    ((List.range cv.height).map (fun yy => (rowCells cv yy, ([] : List Char))))
    [] hpw hpj
  rw [List.append_nil] at h0
  have hmaps : ((List.range cv.height).map
        (fun yy => (rowCells cv yy, ([] : List Char)))).map
        (fun p => p.1.map reparseCell)
      = (List.range cv.height).map (fun yy => rowCells cv yy) := by
    rw [List.map_map]
    apply List.map_congr_left
    intro yy hyy
    exact reparse_rowCells cv yy (List.mem_range.mp hyy) hlen hcells
  rw [hmaps] at h0
  have hplen : ((List.range cv.height).map
      (fun yy => (rowCells cv yy, ([] : List Char)))).length = cv.height := by
    simp
  rw [hplen] at h0
  have hdim : ¬((cv.width : Int) ≤ 0 ∨ (cv.height : Int) ≤ 0
      ∨ 1000 < (cv.width : Int) ∨ 1000 < (cv.height : Int)) := by
    omega
  have hskip : skipToEol ('\n' :: bodyWithJunk ((List.range cv.height).map
      (fun yy => (rowCells cv yy, ([] : List Char)))))
      = bodyWithJunk ((List.range cv.height).map
          (fun yy => (rowCells cv yy, ([] : List Char)))) := by
    simp [skipToEol]
  have hrows : readRows (Int.toNat (cv.width : Int)) (Int.toNat (cv.height : Int))
      (skipToEol ('\n' :: bodyWithJunk ((List.range cv.height).map
        (fun yy => (rowCells cv yy, ([] : List Char))))))
      = some (flattenRows ((List.range cv.height).map (fun yy => rowCells cv yy)),
          []) := by
    rw [Int.toNat_natCast, Int.toNat_natCast, hskip]
    exact h0
  have hheader : parseHeader (save_masterpiece cv)
      = some (((cv.width : Int), (cv.height : Int)),
          '\n' :: bodyWithJunk ((List.range cv.height).map
            (fun yy => (rowCells cv yy, ([] : List Char))))) := by
    rw [save_shape cv]
    exact parseHeader_headerText cv.width cv.height _
  rw [load_success (save_masterpiece cv) cv2 (cv.width : Int) (cv.height : Int)
    _ _ [] hheader hdim hrows]
  unfold overlayGrid
  rw [Int.toNat_natCast, Int.toNat_natCast]
  rw [getCell_copyRows _ _ _ _ cv2 hlen2 (Nat.min_le_right _ _)
    (Nat.min_le_right _ _) x y (by rw [hw]; exact hx) (by rw [hh]; exact hy)]
  have hm1 : min cv.width cv2.width = cv.width := by rw [hw, Nat.min_self]
  have hm2 : min cv.height cv2.height = cv.height := by rw [hh, Nat.min_self]
  rw [hm1, hm2, if_pos ⟨hy, hx⟩]
  have hL : ∀ r ∈ (List.range cv.height).map (fun yy => rowCells cv yy),
      r.length = cv.width := by
    intro r hr
    simp only [List.mem_map, List.mem_range] at hr
    obtain ⟨yy, _, rfl⟩ := hr
    exact rowCells_length cv yy
  rw [flattenRows_getD _ cv.width hL x y hx (by simpa using hy) defaultCell]
  rw [listGetD_rangeMap (fun yy => rowCells cv yy) cv.height y [] hy]
  exact rowCells_getD cv y x hx defaultCell

theorem spec_C2_roundtrip_witness :
    getCell (load_masterpiece (save_masterpiece cvC2) cvC2b) 1 0
      = getCell cvC2 1 0 :=
  spec_C2_roundtrip cvC2 cvC2b (by decide) (by decide) (by decide) (by decide)
    (by decide) (by decide) (by decide) (by decide) (by decide) 1 0
    (by decide) (by decide)

/-- C7: the saved text consists of a first line `"<width> <height>"`
followed by exactly `height` row lines; row line `y` splits on single
spaces into exactly `width` tokens, the token at `x` being
`"<colorIndex>,<asciiCode>"` for the cell at `(x, y)`; and the 3x2 canvas
painted with a color-1 `'#'` at `(0,0)` and a color-3 `'*'` at `(2,1)`
serializes to the text `"3 2\n1,35 7,32 7,32\n7,32 7,32 3,42\n"`. -/
theorem spec_C7_serialize (cv : Canvas) :
    (splitOnChar '\n' (save_masterpiece cv)).length = cv.height + 1
      ∧ (splitOnChar '\n' (save_masterpiece cv)).getD 0 []
          = natRepr cv.width ++ ' ' :: natRepr cv.height
      ∧ (∀ y, y < cv.height →
          (splitOnChar ' '
              ((splitOnChar '\n' (save_masterpiece cv)).getD (y + 1) [])).length
            = cv.width
          ∧ ∀ x, x < cv.width →
              (splitOnChar ' '
                  ((splitOnChar '\n' (save_masterpiece cv)).getD (y + 1) [])).getD x []
                = natRepr (getCell cv x y).color ++ ',' :: natRepr (getCell cv x y).ch)
      ∧ save_masterpiece cvC7 = textC7 := by
  refine ⟨?_, ?_, ?_, by decide⟩
  · rw [splitOnChar_save cv]
    simp
  · rw [splitOnChar_save cv]
    simp [headerText]
  · intro y hy
    have hline : (splitOnChar '\n' (save_masterpiece cv)).getD (y + 1) []
        = serializeTokens (rowCells cv y) := by
      rw [splitOnChar_save cv, List.getD_cons_succ, listGetD_rangeMap _ _ _ _ hy]
    have hmapped : (rowCells cv y).map serializeCell
        = (List.range cv.width).map (fun xx => serializeCell (getCell cv xx y)) := by
      simp only [rowCells, List.map_map]
      rfl
    constructor
    · rw [hline, splitOnChar_serializeTokens]
      simp [rowCells]
    · intro x hx
      rw [hline, splitOnChar_serializeTokens, hmapped,
        listGetD_rangeMap _ _ _ _ hx]
      rfl

theorem spec_C7_serialize_witness :
    (splitOnChar '\n' (save_masterpiece cvC7)).length = cvC7.height + 1
      ∧ (splitOnChar ' '
          ((splitOnChar '\n' (save_masterpiece cvC7)).getD 1 [])).length
        = cvC7.width :=
  ⟨(spec_C7_serialize cvC7).1,
    ((spec_C7_serialize cvC7).2.2.1 0 (by decide)).1⟩
